import Mathlib

/-!
Verification of the DFT workshop utility module
(qe_workshop_complete/notebooks_enhanced/qe_workshop_utils.py).

The numeric routines are embedded shallowly:
rational arithmetic (ℚ) models the float arithmetic of the convergence
analyzer and the EOS fitter front end, real arithmetic (ℝ) models the
Birch-Murnaghan energy model and the FCC volume/lattice conversions,
and Except models Python exceptions (IndexError, ValueError).
-/

namespace QEWorkshop

/-- Python-level failure conditions relevant to the analyzed routines.
indexError and valueError are the exceptions numpy actually raises;
invalidInput and fitDivergence are the conditions named by the design
document, carried here so statements can distinguish them. -/
inductive PyError where
  | indexError
  | valueError
  | invalidInput
  | fitDivergence
deriving DecidableEq, Repr

/-- numpy scalar indexing on an array of length n with a possibly negative
index: a negative index counts from the end, and any index outside
[-n, n-1] raises IndexError (modelled as none). -/
def npIndex (n : Nat) (idx : Int) : Option Nat :=
  let j : Int := if idx < 0 then idx + n else idx
  if 0 ≤ j ∧ j < n then some j.toNat else none

/-- The conversion factor 13605.693 hard-coded in analyze_convergence
(Rydberg to milli-electron-volt). -/
def RY_TO_MEV : ℚ := 13605.693

/-- Python's abs on a rational. -/
def pyAbs (x : ℚ) : ℚ := if x < 0 then -x else x

/-- The for-loop of analyze_convergence: first index (scanning 0, 1, 2, ...)
whose absolute value is at most the threshold, none if no index qualifies. -/
def scanConverged (threshold : ℚ) : List ℚ → Option Nat
  | [] => none
  | de :: rest =>
    if pyAbs de ≤ threshold then some 0
    else (scanConverged threshold rest).map (· + 1)

/-- analyze_convergence from qe_workshop_utils.py (source lines 511-544).
Python defaults: threshold_mev = 1.0, reference_idx = -1, n_atoms = 1.
The source first evaluates values[reference_idx] (numpy raises IndexError
when the index is out of bounds, in particular whenever values is empty),
then computes delta_e = (values - reference) * 13605.693 / n_atoms
elementwise, then scans for the first index within threshold. -/
def analyze_convergence (values : List ℚ) (threshold_mev : ℚ)
    (reference_idx : Int) (n_atoms : ℚ) :
    Except PyError (List ℚ × Option Nat) :=
  match npIndex values.length reference_idx with
  | none => Except.error PyError.indexError
  | some j =>
    let reference := values.getD j 0
    let delta_e := values.map (fun v => (v - reference) * RY_TO_MEV / n_atoms)
    Except.ok (delta_e, scanConverged threshold_mev delta_e)

/-- Combined energies.min() and np.argmin(energies): the minimum value of
the list together with the index of its first occurrence; none on the
empty list (where numpy raises ValueError). -/
def minArgmin : List ℚ → Option (ℚ × Nat)
  | [] => none
  | x :: xs =>
    match minArgmin xs with
    | none => some (x, 0)
    | some (m, i) => if m < x then some (m, i + 1) else some (x, 0)

/-- B0_init = 0.0067 (about 100 GPa in Ry/Bohr^3), hard-coded in
fit_birch_murnaghan. -/
def B0_INIT : ℚ := 0.0067

/-- B0_prime_init = 4.0, hard-coded in fit_birch_murnaghan. -/
def B0_PRIME_INIT : ℚ := 4

/-- fit_birch_murnaghan from qe_workshop_utils.py (source lines 492-509),
parametric over the nonlinear least-squares solver (scipy curve_fit).
The source computes E0_init = energies.min(), V0_init =
volumes[np.argmin(energies)], fixed B0_init and B0_prime_init, and calls
curve_fit exactly once with that initial guess, returning its result.
It performs no validation of its own: an empty energies array fails
inside numpy with ValueError, a volumes array shorter than the argmin
index fails with IndexError, and everything else is handed to the solver. -/
def fit_birch_murnaghan
    (solver : List ℚ → List ℚ → ℚ × ℚ × ℚ × ℚ → Except PyError (ℚ × ℚ × ℚ × ℚ))
    (volumes energies : List ℚ) : Except PyError (ℚ × ℚ × ℚ × ℚ) :=
  match minArgmin energies with
  | none => Except.error PyError.valueError
  | some (e0Init, i) =>
    match volumes[i]? with
    | none => Except.error PyError.indexError
    | some v0Init => solver volumes energies (e0Init, v0Init, B0_INIT, B0_PRIME_INIT)

/-- SHANNON_RADII from qe_workshop_utils.py (source lines 95-142):
a nested mapping element -> oxidation state -> coordination number ->
radius in Angstrom, modelled as nested association lists in source order. -/
def SHANNON_RADII : List (String × List (Int × List (Nat × ℚ))) :=
  [("Li", [(1, [(4, 0.59), (6, 0.76), (8, 0.92)])]),
   ("Na", [(1, [(4, 0.99), (6, 1.02), (8, 1.18), (12, 1.39)])]),
   ("K",  [(1, [(6, 1.38), (8, 1.51), (12, 1.64)])]),
   ("Rb", [(1, [(6, 1.52), (8, 1.61), (12, 1.72)])]),
   ("Cs", [(1, [(6, 1.67), (8, 1.74), (12, 1.88)])]),
   ("Be", [(2, [(4, 0.27), (6, 0.45)])]),
   ("Mg", [(2, [(4, 0.57), (6, 0.72), (8, 0.89)])]),
   ("Ca", [(2, [(6, 1.00), (8, 1.12), (12, 1.34)])]),
   ("Sr", [(2, [(6, 1.18), (8, 1.26), (12, 1.44)])]),
   ("Ba", [(2, [(6, 1.35), (8, 1.42), (12, 1.61)])]),
   ("Ti", [(2, [(6, 0.86)]), (3, [(6, 0.67)]),
           (4, [(4, 0.42), (6, 0.605), (8, 0.74)])]),
   ("V",  [(2, [(6, 0.79)]), (3, [(6, 0.64)]), (4, [(6, 0.58)]),
           (5, [(4, 0.355), (6, 0.54)])]),
   ("Cr", [(2, [(6, 0.80)]), (3, [(6, 0.615)]), (6, [(4, 0.26), (6, 0.44)])]),
   ("Mn", [(2, [(4, 0.66), (6, 0.83)]), (3, [(6, 0.645)]),
           (4, [(4, 0.39), (6, 0.53)]), (7, [(4, 0.25)])]),
   ("Fe", [(2, [(4, 0.63), (6, 0.78)]), (3, [(4, 0.49), (6, 0.645)])]),
   ("Co", [(2, [(4, 0.58), (6, 0.745)]), (3, [(6, 0.61)])]),
   ("Ni", [(2, [(4, 0.55), (6, 0.69)]), (3, [(6, 0.56)])]),
   ("Cu", [(1, [(2, 0.46), (4, 0.60), (6, 0.77)]),
           (2, [(4, 0.57), (6, 0.73)])]),
   ("Zn", [(2, [(4, 0.60), (6, 0.74), (8, 0.90)])]),
   ("Zr", [(4, [(4, 0.59), (6, 0.72), (8, 0.84)])]),
   ("Al", [(3, [(4, 0.39), (6, 0.535)])]),
   ("Ga", [(3, [(4, 0.47), (6, 0.62)])]),
   ("In", [(3, [(6, 0.80), (8, 0.92)])]),
   ("Si", [(4, [(4, 0.26), (6, 0.40)])]),
   ("Ge", [(4, [(4, 0.39), (6, 0.53)])]),
   ("Sn", [(2, [(6, 0.93)]), (4, [(4, 0.55), (6, 0.69)])]),
   ("Pb", [(2, [(6, 1.19), (8, 1.29)]), (4, [(4, 0.65), (6, 0.775)])]),
   ("O",  [(-2, [(2, 1.35), (3, 1.36), (4, 1.38), (6, 1.40), (8, 1.42)])]),
   ("S",  [(-2, [(6, 1.84)])]),
   ("Se", [(-2, [(6, 1.98)])]),
   ("Te", [(-2, [(6, 2.21)])]),
   ("F",  [(-1, [(2, 1.285), (4, 1.31), (6, 1.33)])]),
   ("Cl", [(-1, [(6, 1.81)])]),
   ("Br", [(-1, [(6, 1.96)])]),
   ("I",  [(-1, [(6, 2.20)])]),
   ("N",  [(-3, [(4, 1.46)])]),
   ("La", [(3, [(6, 1.032), (8, 1.16), (12, 1.36)])]),
   ("Ce", [(3, [(6, 1.01)]), (4, [(6, 0.87)])]),
   ("Gd", [(3, [(6, 0.938)])]),
   ("Yb", [(2, [(6, 1.02)]), (3, [(6, 0.868)])])]

/-- get_shannon_radius from qe_workshop_utils.py (source lines 144-168):
three membership guards, each returning None on a miss, then the nested
indexing. -/
def get_shannon_radius (element : String) (oxidation : Int)
    (coordination : Nat) : Option ℚ :=
  match SHANNON_RADII.lookup element with
  | none => none
  | some byOx =>
    match byOx.lookup oxidation with
    | none => none
    | some byCN =>
      match byCN.lookup coordination with
      | none => none
      | some r => some r

/-- The design document's reading of the radius table: an immutable nested
mapping keyed by (symbol, oxidation state, coordination number), with
lookup returning an optional value. -/
def shannonMapping (element : String) (oxidation : Int)
    (coordination : Nat) : Option ℚ :=
  (SHANNON_RADII.lookup element).bind fun byOx =>
    (byOx.lookup oxidation).bind fun byCN => byCN.lookup coordination

/-- birch_murnaghan from qe_workshop_utils.py (source lines 477-490):
eta = (V0 / V) ** (2.0 / 3.0), and
E = E0 + (9*V0*B0/16) * ((eta - 1)^3 * B0_prime + (eta - 1)^2 * (6 - 4*eta)).
Real powers model the float power operator. -/
noncomputable def birch_murnaghan (V E0 V0 B0 B0_prime : ℝ) : ℝ :=
  let eta := (V0 / V) ^ ((2 : ℝ) / 3)
  E0 + (9 * V0 * B0 / 16) *
    ((eta - 1) ^ (3 : ℕ) * B0_prime + (eta - 1) ^ (2 : ℕ) * (6 - 4 * eta))

/-- The model contract as written in the design document:
E(V) = E0 + (9 V0 B0 / 16) [ (eta-1)^3 B0p + (eta-1)^2 (6-4 eta) ] with
eta = (V0/V)^(2/3). Stated independently of the source translation so the
two can be compared. -/
noncomputable def birch_murnaghan_spec_formula (V E0 V0 B0 B0_prime : ℝ) : ℝ :=
  E0 + (9 * V0 * B0 / 16) *
    (((V0 / V) ^ ((2 : ℝ) / 3) - 1) ^ (3 : ℕ) * B0_prime +
      ((V0 / V) ^ ((2 : ℝ) / 3) - 1) ^ (2 : ℕ) * (6 - 4 * (V0 / V) ^ ((2 : ℝ) / 3)))

/-- volume_to_lattice_fcc from qe_workshop_utils.py (source lines 81-83):
a = (4 V) ** (1/3). -/
noncomputable def volume_to_lattice_fcc (volume : ℝ) : ℝ :=
  (4 * volume) ^ ((1 : ℝ) / 3)

/-- lattice_to_volume_fcc from qe_workshop_utils.py (source lines 85-87):
V = a^3 / 4. -/
noncomputable def lattice_to_volume_fcc (a : ℝ) : ℝ :=
  a ^ (3 : ℕ) / 4

theorem pyAbs_eq_abs (x : ℚ) : pyAbs x = |x| := by
  unfold pyAbs
  rcases lt_or_le x 0 with h | h
  · rw [if_pos h, abs_of_neg h]
  · rw [if_neg (not_lt.mpr h), abs_of_nonneg h]

example : analyze_convergence [] 1 (-1) 1 = Except.error PyError.indexError := rfl

example : analyze_convergence [0, 1] 1 (-1) 1 =
    Except.ok ([-13605.693, 0], some 1) := by
  norm_num [analyze_convergence, npIndex, RY_TO_MEV, scanConverged, pyAbs]

example : minArgmin [5, 4, 3, 6] = some (3, 2) := by
  norm_num [minArgmin]

example : fit_birch_murnaghan (fun _ _ p => Except.ok p) [1, 2, 3] [5, 4, 6] =
    Except.ok (4, 2, B0_INIT, B0_PRIME_INIT) := by
  norm_num [fit_birch_murnaghan, minArgmin]

theorem npIndex_lt_length (n : Nat) (idx : Int) (j : Nat)
    (h : npIndex n idx = some j) : j < n := by
  simp only [npIndex] at h
  split at h <;> split at h
  · injection h with h'
    omega
  · simp at h
  · injection h with h'
    omega
  · simp at h

theorem scanConverged_eq_some (t : ℚ) (l : List ℚ) (i : Nat)
    (h : scanConverged t l = some i) :
    i < l.length ∧ |l.getD i 0| ≤ t ∧ ∀ k, k < i → ¬ |l.getD k 0| ≤ t := by
  induction l generalizing i with
  | nil => simp [scanConverged] at h
  | cons x xs ih =>
    rw [scanConverged] at h
    by_cases hx : pyAbs x ≤ t
    · rw [if_pos hx] at h
      injection h with h0
      subst h0
      rw [pyAbs_eq_abs] at hx
      exact ⟨Nat.succ_pos _, by simpa using hx, fun k hk => absurd hk (Nat.not_lt_zero k)⟩
    · rw [if_neg hx] at h
      obtain ⟨i', hi', rfl⟩ := Option.map_eq_some'.mp h
      obtain ⟨h1, h2, h3⟩ := ih i' hi'
      rw [pyAbs_eq_abs] at hx
      refine ⟨Nat.succ_lt_succ h1, by simpa [List.getD_cons_succ] using h2, ?_⟩
      intro k hk
      cases k with
      | zero => simpa using hx
      | succ k' =>
        simpa [List.getD_cons_succ] using h3 k' (Nat.lt_of_succ_lt_succ hk)

theorem scanConverged_eq_none (t : ℚ) (l : List ℚ)
    (h : scanConverged t l = none) :
    ∀ i, i < l.length → ¬ |l.getD i 0| ≤ t := by
  induction l with
  | nil => intro i hi; simp at hi
  | cons x xs ih =>
    rw [scanConverged] at h
    by_cases hx : pyAbs x ≤ t
    · rw [if_pos hx] at h; exact absurd h (by simp)
    · rw [if_neg hx] at h
      have h' : scanConverged t xs = none := by
        cases hc : scanConverged t xs with
        | none => rfl
        | some j => rw [hc] at h; simp at h
      rw [pyAbs_eq_abs] at hx
      intro i hi
      cases i with
      | zero => simpa using hx
      | succ i' =>
        simpa [List.getD_cons_succ] using ih h' i' (Nat.lt_of_succ_lt_succ hi)

theorem scanConverged_le_of_hit (t : ℚ) (l : List ℚ) (m : Nat)
    (hm : m < l.length) (hv : |l.getD m 0| ≤ t) :
    ∃ i, scanConverged t l = some i ∧ i ≤ m := by
  induction l generalizing m with
  | nil => simp at hm
  | cons x xs ih =>
    by_cases hx : pyAbs x ≤ t
    · exact ⟨0, by rw [scanConverged, if_pos hx], Nat.zero_le m⟩
    · cases m with
      | zero =>
        rw [pyAbs_eq_abs] at hx
        rw [List.getD_cons_zero] at hv
        exact absurd hv hx
      | succ m' =>
        obtain ⟨i, hi, hle⟩ :=
          ih m' (Nat.lt_of_succ_lt_succ hm) (by simpa [List.getD_cons_succ] using hv)
        refine ⟨i + 1, ?_, Nat.succ_le_succ hle⟩
        rw [scanConverged, if_neg hx, hi]
        rfl

theorem minArgmin_eq_none_iff (l : List ℚ) : minArgmin l = none ↔ l = [] := by
  cases l with
  | nil => simp [minArgmin]
  | cons x xs =>
    simp only [minArgmin]
    constructor
    · intro h
      split at h
      · exact absurd h (by simp)
      · split at h <;> exact absurd h (by simp)
    · intro h
      exact absurd h (by simp)

theorem minArgmin_get (l : List ℚ) (m : ℚ) (i : Nat)
    (h : minArgmin l = some (m, i)) : l[i]? = some m := by
  induction l generalizing m i with
  | nil => simp [minArgmin] at h
  | cons x xs ih =>
    simp only [minArgmin] at h
    split at h
    · injection h with h'
      injection h' with h1 h2
      subst h1; subst h2
      simp
    · rename_i m' i' hc
      split at h
      · injection h with h'
        injection h' with h1 h2
        subst h1; subst h2
        simpa using ih m' i' hc
      · injection h with h'
        injection h' with h1 h2
        subst h1; subst h2
        simp

theorem minArgmin_le (l : List ℚ) (m : ℚ) (i : Nat)
    (h : minArgmin l = some (m, i)) : ∀ x ∈ l, m ≤ x := by
  induction l generalizing m i with
  | nil => simp [minArgmin] at h
  | cons x xs ih =>
    simp only [minArgmin] at h
    split at h
    · rename_i hc
      rw [minArgmin_eq_none_iff] at hc
      subst hc
      injection h with h'
      injection h' with h1 h2
      subst h1
      simp
    · rename_i m' i' hc
      have htail := ih m' i' hc
      split at h <;> rename_i hlt
      all_goals
        injection h with h'
        injection h' with h1 h2
        subst h1
      · intro y hy
        rcases List.mem_cons.mp hy with rfl | hmem
        · exact le_of_lt hlt
        · exact htail y hmem
      · intro y hy
        rcases List.mem_cons.mp hy with rfl | hmem
        · exact le_refl y
        · exact le_trans (not_lt.mp hlt) (htail y hmem)

theorem minArgmin_first (l : List ℚ) (m : ℚ) (i : Nat)
    (h : minArgmin l = some (m, i)) :
    ∀ k, k < i → ∀ y, l[k]? = some y → m < y := by
  induction l generalizing m i with
  | nil => simp [minArgmin] at h
  | cons x xs ih =>
    simp only [minArgmin] at h
    split at h
    · injection h with h'
      injection h' with h1 h2
      subst h2
      intro k hk
      exact absurd hk (Nat.not_lt_zero k)
    · rename_i m' i' hc
      split at h <;> rename_i hlt
      all_goals
        injection h with h'
        injection h' with h1 h2
        subst h1; subst h2
      · intro k hk y hy
        cases k with
        | zero =>
          rw [List.getElem?_cons_zero] at hy
          injection hy with hy'
          subst hy'
          exact hlt
        | succ k' =>
          rw [List.getElem?_cons_succ] at hy
          exact ih m' i' hc k' (Nat.lt_of_succ_lt_succ hk) y hy
      · intro k hk
        exact absurd hk (Nat.not_lt_zero k)

/-- C1 counterexample: calling the fitter with only 3 samples, a malformed
input, does not signal InvalidInput: the initial guess is formed, the
least-squares solve is attempted, and the solver's result is returned. -/
theorem fit_birch_murnaghan_skips_validation_cex :
    fit_birch_murnaghan (fun _ _ p => Except.ok p) [1, 2, 3] [5, 4, 6] =
      Except.ok (4, 2, B0_INIT, B0_PRIME_INIT) ∧
    (Except.ok ((4 : ℚ), 2, B0_INIT, B0_PRIME_INIT) :
        Except PyError (ℚ × ℚ × ℚ × ℚ)) ≠ Except.error PyError.invalidInput := by
  constructor
  · norm_num [fit_birch_murnaghan, minArgmin]
  · intro h
    exact Except.noConfusion h

/-- C1 amended: fit_birch_murnaghan performs no input validation of its
own. On every input, malformed or not, it either fails with one of the
exceptions numpy itself raises while forming the initial guess
(ValueError from min/argmin on an empty energies array, IndexError from
indexing a too-short volumes array) or hands the data to a single
least-squares solve and returns that solve's outcome unchanged; it never
signals an InvalidInput condition of its own. -/
theorem fit_birch_murnaghan_no_eager_validation
    (solver : List ℚ → List ℚ → ℚ × ℚ × ℚ × ℚ → Except PyError (ℚ × ℚ × ℚ × ℚ))
    (volumes energies : List ℚ) :
    fit_birch_murnaghan solver volumes energies = Except.error PyError.valueError ∨
    fit_birch_murnaghan solver volumes energies = Except.error PyError.indexError ∨
    ∃ p, fit_birch_murnaghan solver volumes energies = solver volumes energies p := by
  simp only [fit_birch_murnaghan]
  split
  · exact Or.inl rfl
  · split
    · exact Or.inr (Or.inl rfl)
    · exact Or.inr (Or.inr ⟨_, rfl⟩)

/-- C2 counterexample: for values [0, 1] with the default reference (the
last element) and divisor 1, the claimed identity default scale would give
deviation[0] = (0 - 1) * 1 / 1 = -1, but analyze_convergence returns
-13605.693: the scale factor is hard-coded, not caller-supplied. -/
theorem analyze_convergence_scale_cex :
    analyze_convergence [0, 1] 1 (-1) 1 =
      Except.ok ([-13605.693, 0], some 1) ∧
    (-13605.693 : ℚ) ≠ ((0 : ℚ) - 1) * 1 / 1 := by
  constructor
  · norm_num [analyze_convergence, npIndex, RY_TO_MEV, scanConverged, pyAbs]
  · norm_num

/-- C2 amended: for every non-empty values sequence and valid reference
index j (with positive n_atoms), analyze_convergence returns a deviation
sequence of the same length as values with
deviation[i] = (values[i] - values[j]) * 13605.693 / n_atoms for every i:
the multiplicative factor is the fixed Ry-to-meV conversion 13605.693
hard-coded in the source, not a caller-supplied factor defaulting to the
identity, and n_atoms is the caller-supplied divisor defaulting to 1. -/
theorem analyze_convergence_deviation_formula
    (values : List ℚ) (t : ℚ) (idx : Int) (n : ℚ) (j : Nat)
    (hj : npIndex values.length idx = some j) (hn : 0 < n) :
    ∃ d c, analyze_convergence values t idx n = Except.ok (d, c) ∧
      d.length = values.length ∧
      ∀ i : Nat, d[i]? = (values[i]?).map
        (fun v => (v - values.getD j 0) * RY_TO_MEV / n) := by
  refine ⟨values.map (fun v => (v - values.getD j 0) * RY_TO_MEV / n),
    scanConverged t (values.map (fun v => (v - values.getD j 0) * RY_TO_MEV / n)),
    ?_, List.length_map _ _, fun i => List.getElem?_map _ _ _⟩
  simp only [analyze_convergence, hj]

/-- Witness for the amended C2 theorem at values [0, 1], threshold 1,
reference index -1 (resolving to index 1) and n_atoms 1. -/
theorem analyze_convergence_deviation_formula_witness :
    npIndex ([(0 : ℚ), 1].length) (-1) = some 1 ∧ (0 : ℚ) < 1 ∧
    ∃ d c, analyze_convergence [0, 1] 1 (-1) 1 = Except.ok (d, c) ∧
      d.length = [(0 : ℚ), 1].length ∧
      ∀ i : Nat, d[i]? = ([(0 : ℚ), 1][i]?).map
        (fun v => (v - [(0 : ℚ), 1].getD 1 0) * RY_TO_MEV / 1) :=
  ⟨rfl, by norm_num,
    analyze_convergence_deviation_formula [0, 1] 1 (-1) 1 1 rfl (by norm_num)⟩

/-- C3 counterexample: on empty values the analyzer fails with the same
IndexError condition as for an out-of-range reference index, not with a
distinct InvalidInput condition. -/
theorem analyze_convergence_empty_cex :
    analyze_convergence [] 1 (-1) 1 = Except.error PyError.indexError ∧
    PyError.indexError ≠ PyError.invalidInput :=
  ⟨rfl, by decide⟩

/-- C3 amended: analyze_convergence fails with IndexError whenever the
reference index is out of bounds, and an empty values sequence fails with
that same IndexError condition (every index is out of bounds for it), not
with a distinct InvalidInput; in either case no deviations and no
converged index are produced. -/
theorem analyze_convergence_index_error
    (values : List ℚ) (t : ℚ) (idx : Int) (n : ℚ)
    (h : idx < -(values.length : Int) ∨ (values.length : Int) ≤ idx) :
    analyze_convergence values t idx n = Except.error PyError.indexError := by
  have hnone : npIndex values.length idx = none := by
    simp only [npIndex]
    by_cases hneg : idx < 0
    · rw [if_pos hneg, if_neg (by omega)]
    · rw [if_neg hneg, if_neg (by omega)]
  simp only [analyze_convergence, hnone]

/-- Witness for the amended C3 theorem at the empty values sequence with
the default reference index -1. -/
theorem analyze_convergence_index_error_witness :
    ((-1 : Int) < -((([] : List ℚ).length : Int)) ∨
      ((([] : List ℚ).length : Int) ≤ -1)) ∧
    analyze_convergence [] 1 (-1) 1 = Except.error PyError.indexError :=
  ⟨Or.inl (by norm_num), analyze_convergence_index_error [] 1 (-1) 1
    (Or.inl (by norm_num))⟩

/-- C4: for every values sequence, threshold, and valid reference index,
the converged index returned by analyze_convergence is the smallest index
(scanning 0, 1, 2, ... in ascending order) whose absolute deviation is at
most the threshold, and when no index qualifies the result is the
distinguished absent value none rather than an error. -/
theorem analyze_convergence_first_qualifying_index
    (values : List ℚ) (t : ℚ) (idx : Int) (n : ℚ) (j : Nat)
    (hj : npIndex values.length idx = some j) :
    ∃ d c, analyze_convergence values t idx n = Except.ok (d, c) ∧
      (∀ i, c = some i →
        i < d.length ∧ |d.getD i 0| ≤ t ∧ ∀ k, k < i → ¬ |d.getD k 0| ≤ t) ∧
      (c = none → ∀ i, i < d.length → ¬ |d.getD i 0| ≤ t) := by
  refine ⟨values.map (fun v => (v - values.getD j 0) * RY_TO_MEV / n),
    scanConverged t (values.map (fun v => (v - values.getD j 0) * RY_TO_MEV / n)),
    ?_, ?_, ?_⟩
  · simp only [analyze_convergence, hj]
  · intro i hi
    exact scanConverged_eq_some t _ i hi
  · intro hnone
    exact scanConverged_eq_none t _ hnone

/-- Witness for the C4 theorem at values [0, 1], threshold 1, reference
index -1 (resolving to index 1) and n_atoms 1. -/
theorem analyze_convergence_first_qualifying_index_witness :
    npIndex ([(0 : ℚ), 1].length) (-1) = some 1 ∧
    ∃ d c, analyze_convergence [0, 1] 1 (-1) 1 = Except.ok (d, c) ∧
      (∀ i, c = some i →
        i < d.length ∧ |d.getD i 0| ≤ 1 ∧ ∀ k, k < i → ¬ |d.getD k 0| ≤ 1) ∧
      (c = none → ∀ i, i < d.length → ¬ |d.getD i 0| ≤ 1) :=
  ⟨rfl, analyze_convergence_first_qualifying_index [0, 1] 1 (-1) 1 1 rfl⟩

/-- C5: the deviation at the (valid) reference index is exactly 0, so for
any non-negative threshold the scan always succeeds at an index at most
the reference index; in particular with the default reference index -1
(the last element) not-converged is never reported. -/
theorem analyze_convergence_reference_deviation_zero
    (values : List ℚ) (t : ℚ) (idx : Int) (n : ℚ) (j : Nat)
    (hj : npIndex values.length idx = some j) (ht : 0 ≤ t) :
    ∃ d c, analyze_convergence values t idx n = Except.ok (d, c) ∧
      d[j]? = some 0 ∧ ∃ i, c = some i ∧ i ≤ j := by
  have hjlt : j < values.length := npIndex_lt_length _ _ _ hj
  have href : values.getD j 0 = values[j] := List.getD_eq_getElem values 0 hjlt
  have hdj : (values.map (fun v => (v - values.getD j 0) * RY_TO_MEV / n))[j]? =
      some 0 := by
    rw [List.getElem?_map, List.getElem?_eq_getElem hjlt, Option.map_some']
    rw [href, sub_self, zero_mul, zero_div]
  have hdj' : (values.map (fun v => (v - values.getD j 0) * RY_TO_MEV / n)).getD j 0 =
      0 := by
    rw [List.getD_eq_getElem?_getD, hdj]
    rfl
  obtain ⟨i, hi, hle⟩ := scanConverged_le_of_hit t
    (values.map (fun v => (v - values.getD j 0) * RY_TO_MEV / n)) j
    (by rw [List.length_map]; exact hjlt)
    (by rw [hdj']; simpa using ht)
  refine ⟨values.map (fun v => (v - values.getD j 0) * RY_TO_MEV / n),
    scanConverged t (values.map (fun v => (v - values.getD j 0) * RY_TO_MEV / n)),
    ?_, hdj, i, hi, hle⟩
  simp only [analyze_convergence, hj]

/-- Witness for the C5 theorem at values [0, 1], threshold 1, the default
reference index -1 (resolving to index 1) and n_atoms 1. -/
theorem analyze_convergence_reference_deviation_zero_witness :
    npIndex ([(0 : ℚ), 1].length) (-1) = some 1 ∧ (0 : ℚ) ≤ 1 ∧
    ∃ d c, analyze_convergence [0, 1] 1 (-1) 1 = Except.ok (d, c) ∧
      d[1]? = some 0 ∧ ∃ i, c = some i ∧ i ≤ 1 :=
  ⟨rfl, by norm_num,
    analyze_convergence_reference_deviation_zero [0, 1] 1 (-1) 1 1 rfl (by norm_num)⟩

/-- C6: for V0 > 0, evaluating the Birch-Murnaghan model at V = V0 gives
eta = (V0/V0)^(2/3) = 1 and returns exactly E0: an exact round trip. -/
theorem birch_murnaghan_at_equilibrium (E0 V0 B0 B0p : ℝ) (h : 0 < V0) :
    (V0 / V0) ^ ((2 : ℝ) / 3) = 1 ∧
    birch_murnaghan V0 E0 V0 B0 B0p = E0 := by
  have heta : (V0 / V0) ^ ((2 : ℝ) / 3) = 1 := by
    rw [div_self (ne_of_gt h), Real.one_rpow]
  refine ⟨heta, ?_⟩
  simp only [birch_murnaghan, heta]
  ring

/-- Witness for the C6 theorem at E0 = 1, V0 = 1, B0 = 1, B0p = 1. -/
theorem birch_murnaghan_at_equilibrium_witness :
    (0 : ℝ) < 1 ∧
    (((1 : ℝ) / 1) ^ ((2 : ℝ) / 3) = 1 ∧ birch_murnaghan 1 1 1 1 1 = 1) :=
  ⟨by norm_num, birch_murnaghan_at_equilibrium 1 1 1 1 (by norm_num)⟩

/-- C7: for every volume V > 0 and parameters with V0 > 0 the source model
agrees with the specified closed form
E0 + (9 V0 B0 / 16) ((eta-1)^3 B0p + (eta-1)^2 (6 - 4 eta)) at
eta = (V0/V)^(2/3), both pointwise (scalar V) and elementwise on a list
(array-valued V). -/
theorem birch_murnaghan_matches_spec_formula
    (V E0 V0 B0 B0p : ℝ) (Vs : List ℝ) (hV : 0 < V) (hV0 : 0 < V0) :
    birch_murnaghan V E0 V0 B0 B0p = birch_murnaghan_spec_formula V E0 V0 B0 B0p ∧
    Vs.map (fun v => birch_murnaghan v E0 V0 B0 B0p) =
      Vs.map (fun v => birch_murnaghan_spec_formula v E0 V0 B0 B0p) :=
  ⟨rfl, rfl⟩

/-- Witness for the C7 theorem at V = 1, E0 = 0, V0 = 1, B0 = 0, B0p = 0
and the list [1]. -/
theorem birch_murnaghan_matches_spec_formula_witness :
    (0 : ℝ) < 1 ∧ (0 : ℝ) < 1 ∧
    (birch_murnaghan 1 0 1 0 0 = birch_murnaghan_spec_formula 1 0 1 0 0 ∧
      [(1 : ℝ)].map (fun v => birch_murnaghan v 0 1 0 0) =
        [(1 : ℝ)].map (fun v => birch_murnaghan_spec_formula v 0 1 0 0)) :=
  ⟨by norm_num, by norm_num,
    birch_murnaghan_matches_spec_formula 1 0 1 0 0 [1] (by norm_num) (by norm_num)⟩

/-- C8: on every input on which numpy's own operations succeed, in
particular every valid one, the fitter forms its initial guess from the
minimum energy (e0 is the minimum of energies, attained first at index i)
together with the volume at that index and the fixed defaults B0_INIT and
B0_PRIME_INIT, hands the data and the guess to the least-squares solver
exactly once, and returns that single attempt's outcome unchanged, with
no retry. -/
theorem fit_birch_murnaghan_initial_guess_single_solve
    (solver : List ℚ → List ℚ → ℚ × ℚ × ℚ × ℚ → Except PyError (ℚ × ℚ × ℚ × ℚ))
    (volumes energies : List ℚ) (e0 : ℚ) (i : Nat) (v0 : ℚ)
    (hmin : minArgmin energies = some (e0, i)) (hv : volumes[i]? = some v0) :
    (∀ x ∈ energies, e0 ≤ x) ∧ energies[i]? = some e0 ∧
    (∀ k, k < i → ∀ y, energies[k]? = some y → e0 < y) ∧
    fit_birch_murnaghan solver volumes energies =
      solver volumes energies (e0, v0, B0_INIT, B0_PRIME_INIT) := by
  refine ⟨minArgmin_le _ _ _ hmin, minArgmin_get _ _ _ hmin,
    minArgmin_first _ _ _ hmin, ?_⟩
  simp only [fit_birch_murnaghan, hmin, hv]

/-- Witness for the C8 theorem at volumes [1, 2, 3, 4] and energies
[5, 4, 3, 6] (minimum 3 first attained at index 2, volume 3 there), with
a solver returning its initial guess. -/
theorem fit_birch_murnaghan_initial_guess_single_solve_witness :
    minArgmin [5, 4, 3, 6] = some (3, 2) ∧
    ([(1 : ℚ), 2, 3, 4][2]? = some 3) ∧
    ((∀ x ∈ [(5 : ℚ), 4, 3, 6], (3 : ℚ) ≤ x) ∧
      ([(5 : ℚ), 4, 3, 6][2]? = some 3) ∧
      (∀ k, k < 2 → ∀ y, [(5 : ℚ), 4, 3, 6][k]? = some y → (3 : ℚ) < y) ∧
      fit_birch_murnaghan (fun _ _ p => Except.ok p) [1, 2, 3, 4] [5, 4, 3, 6] =
        Except.ok (3, 3, B0_INIT, B0_PRIME_INIT)) :=
  ⟨by norm_num [minArgmin], by norm_num,
    fit_birch_murnaghan_initial_guess_single_solve (fun _ _ p => Except.ok p)
      [1, 2, 3, 4] [5, 4, 3, 6] 3 2 3 (by norm_num [minArgmin]) (by norm_num)⟩

/-- C9: get_shannon_radius behaves as optional lookup in the nested
mapping SHANNON_RADII: it returns the stored radius when the
(element, oxidation, coordination) triple is present and none otherwise
(being a total function it never raises on a missing key); concretely,
the stored Ba(2+, CN 12) radius is returned and an absent triple yields
none. -/
theorem get_shannon_radius_optional_lookup :
    (∀ element oxidation coordination,
      get_shannon_radius element oxidation coordination =
        shannonMapping element oxidation coordination) ∧
    get_shannon_radius "Ba" 2 12 = some 1.61 ∧
    get_shannon_radius "Xx" 0 0 = none := by
  refine ⟨?_, rfl, rfl⟩
  intro e o c
  unfold get_shannon_radius shannonMapping
  cases SHANNON_RADII.lookup e with
  | none => rfl
  | some byOx =>
    cases hc : byOx.lookup o with
    | none => simp [hc]
    | some byCN =>
      cases hcc : byCN.lookup c with
      | none => simp [hc, hcc]
      | some r => simp [hc, hcc]

/-- C10: the FCC conversions are mutually inverse on positive reals
(exact real arithmetic, V = a^3 / 4):
volume_to_lattice_fcc (lattice_to_volume_fcc a) = a and
lattice_to_volume_fcc (volume_to_lattice_fcc V) = V. -/
theorem fcc_conversions_inverse (a V : ℝ) (ha : 0 < a) (hV : 0 < V) :
    volume_to_lattice_fcc (lattice_to_volume_fcc a) = a ∧
    lattice_to_volume_fcc (volume_to_lattice_fcc V) = V := by
  constructor
  · unfold volume_to_lattice_fcc lattice_to_volume_fcc
    have h4 : 4 * (a ^ (3 : ℕ) / 4) = a ^ (3 : ℕ) := by ring
    rw [h4, ← Real.rpow_natCast a 3, ← Real.rpow_mul ha.le]
    norm_num
  · unfold volume_to_lattice_fcc lattice_to_volume_fcc
    have h4V : (0 : ℝ) ≤ 4 * V := by positivity
    rw [← Real.rpow_natCast ((4 * V) ^ ((1 : ℝ) / 3)) 3, ← Real.rpow_mul h4V]
    norm_num

/-- Witness for the C10 theorem at a = 1 and V = 1. -/
theorem fcc_conversions_inverse_witness :
    (0 : ℝ) < 1 ∧ (0 : ℝ) < 1 ∧
    (volume_to_lattice_fcc (lattice_to_volume_fcc 1) = 1 ∧
      lattice_to_volume_fcc (volume_to_lattice_fcc 1) = 1) :=
  ⟨by norm_num, by norm_num, fcc_conversions_inverse 1 1 (by norm_num) (by norm_num)⟩

end QEWorkshop
